import Mathlib

/-!
A verification development for the calbridge synchronization core.

The health checker (internal/health/health.go) is present in the source
snapshot and its decision function is embedded directly.  The CalDAV
client, the sync reconciler and the job scheduler are exercised only by
the tests in the snapshot; definitions embedding those components carry a
doc comment starting with `Modelled from the spec:` and follow the
specification's wording, constrained by the expectations the tests pin.
-/

/-- One iCalendar event resource as the caldav package represents it:
resource path, ETag, raw serialized data, UID, summary and start time. -/
structure Event where
  Path : String
  ETag : String
  Data : String
  UID : String
  Summary : String
  StartTime : String
deriving Repr, DecidableEq

/-- Modelled from the spec: the caldav client implementation is not in
the snapshot; the dedupe key of an event is the pure function
Summary plus a vertical-bar separator plus StartTime, with empty fields
participating literally. -/
def Event.DedupeKey (e : Event) : String :=
  e.Summary ++ "|" ++ e.StartTime

/-- One calendar collection: path, display name, description, color,
stored sync token and CTag. -/
structure Calendar where
  Path : String
  Name : String
  Description : String
  Color : String
  SyncToken : String
  CTag : String
deriving Repr, DecidableEq

/-- A (resource path, error message) pair recorded when a fetched
resource cannot be parsed as valid iCalendar. -/
structure MalformedEventInfo where
  Path : String
  ErrorMessage : String
deriving Repr, DecidableEq

/-- Modelled from the spec: the malformed-event collector implementation
is not in the snapshot; it is an ordered, append-only list of
(path, message) entries scoped to one run. -/
structure MalformedEventCollector where
  events : List MalformedEventInfo
deriving Repr, DecidableEq

/-- Modelled from the spec: a freshly created collector holds no entries. -/
def NewMalformedEventCollector : MalformedEventCollector :=
  { events := [] }

/-- Modelled from the spec: Add appends one (path, message) entry. -/
def MalformedEventCollector.Add (c : MalformedEventCollector) (path msg : String) :
    MalformedEventCollector :=
  { events := c.events ++ [{ Path := path, ErrorMessage := msg }] }

/-- Modelled from the spec: Count is read-only and returns the number of
collected entries. -/
def MalformedEventCollector.Count (c : MalformedEventCollector) : Nat :=
  c.events.length

/-- Modelled from the spec: GetEvents is read-only and returns the
collected entries in insertion order. -/
def MalformedEventCollector.GetEvents (c : MalformedEventCollector) :
    List MalformedEventInfo :=
  c.events

/-- A finite sequence of Add calls applied in order to a collector. -/
def addAll (c : MalformedEventCollector) (ps : List (String × String)) :
    MalformedEventCollector :=
  ps.foldl (fun acc p => acc.Add p.1 p.2) c

/-- Result of a DeleteEvent call, from the spec's error taxonomy for that
operation. -/
inductive DeleteResult where
  | ok
  | notFound
  | connectionFailed
deriving Repr, DecidableEq

/-- NotFound is treated as success by the caller: a delete of an
already-absent resource is not an error. -/
def DeleteResult.isSuccess : DeleteResult → Bool
  | .ok => true
  | .notFound => true
  | .connectionFailed => false

/-- Modelled from the spec: the caldav client implementation is not in
the snapshot; DeleteEvent removes the resource at the given path from the
calendar collection, and when the resource is already absent the call
reports NotFound, which the caller treats as success. -/
def DeleteEvent (resources : List String) (path : String) :
    List String × DeleteResult :=
  if path ∈ resources then
    (resources.filter (fun q => decide (¬ q = path)), DeleteResult.ok)
  else
    (resources, DeleteResult.notFound)

/-- One CalDAV server's observable state for the sync model: the current
full set of event resources, the paths whose bodies are unparseable, the
server's current sync token, the set of stored tokens it still accepts,
and the delta (changed events, deleted paths) it reports for an accepted
token. -/
structure ServerState where
  events : List Event
  malformedPaths : List String
  currentToken : String
  accepted : List String
  deltaChanged : String → List Event
  deltaDeleted : String → List String

/-- The result of one Sync call: changed events, deleted paths, the new
token, and whether the listing is an authoritative full set. -/
structure SyncResult where
  changedEvents : List Event
  deletedPaths : List String
  newToken : String
  fullResync : Bool
deriving Repr, DecidableEq

/-- Modelled from the spec: the caldav client implementation is not in
the snapshot; Sync issues a delta REPORT when the calendar carries a
stored token the server accepts, and otherwise — no stored token, or the
server rejects the stored token — the client clears the token and falls
back to a full listing of all resources, returning fullResync = true and
no explicit deleted paths. -/
def Sync (S : ServerState) (cal : Calendar) : SyncResult :=
  if ¬ cal.SyncToken = "" ∧ cal.SyncToken ∈ S.accepted then
    { changedEvents := S.deltaChanged cal.SyncToken
      deletedPaths := S.deltaDeleted cal.SyncToken
      newToken := S.currentToken
      fullResync := false }
  else
    { changedEvents := S.events
      deletedPaths := []
      newToken := S.currentToken
      fullResync := true }

/-- Outcome of fetching one changed source resource: the parsed event, or
a malformed-content failure carrying that resource's path. -/
inductive FetchResult where
  | ok (e : Event)
  | malformed (path msg : String)
deriving Repr, DecidableEq

/-- Modelled from the spec: fetching a changed resource parses its body;
on parse failure it yields MalformedContent for that path instead of
failing the run. -/
def FetchEvent (S : ServerState) (e : Event) : FetchResult :=
  if e.Path ∈ S.malformedPaths then
    FetchResult.malformed e.Path "malformed content"
  else
    FetchResult.ok e

/-- The configured conflict strategy, a closed tagged variant. -/
inductive ConflictStrategy where
  | sourceWins
  | destWins
deriving Repr, DecidableEq

/-- One persistent UID-map entry: a source UID, the source path it was
last seen at, the destination resource holding it, and the destination
ETag recorded at the last reconciled write. -/
structure MapEntry where
  uid : String
  srcPath : String
  destPath : String
  lastETag : String
deriving Repr, DecidableEq

/-- One destination change decided by the reconciler. -/
inductive SyncAction where
  | create (e : Event)
  | update (destPath : String) (e : Event)
  | conflictSkip (destPath : String)
  | adopt (uid : String) (destPath : String)
  | delete (destPath : String)
deriving Repr, DecidableEq

def SyncAction.isCreate : SyncAction → Bool
  | .create _ => true
  | _ => false

def SyncAction.isDelete : SyncAction → Bool
  | .delete _ => true
  | _ => false

/-- The reconciler's evolving per-run state: the persistent UID map, the
known destination events, the destination changes decided so far, and the
malformed-event collector for this run. -/
structure RunState where
  uidMap : List MapEntry
  destEvents : List Event
  actions : List SyncAction
  collector : MalformedEventCollector
deriving Repr, DecidableEq

/-- The state a run starts from: the persisted UID map, the existing
destination events, no actions yet, and a fresh collector. -/
def initState (m0 : List MapEntry) (dest : List Event) : RunState :=
  { uidMap := m0, destEvents := dest, actions := [],
    collector := NewMalformedEventCollector }

/-- A destination path is mapped when some UID-map entry points at it. -/
def destMapped (m : List MapEntry) (destPath : String) : Bool :=
  m.any (fun en => decide (en.destPath = destPath))

/-- Modelled from the spec: the dedupe search scans the existing unmapped
destination events for one whose dedupe key equals the given key. -/
def findDedupeMatch (m : List MapEntry) (dest : List Event) (key : String) :
    Option Event :=
  dest.find? (fun d => decide (destMapped m d.Path = false ∧ d.DedupeKey = key))

/-- Modelled from the spec: the destination path chosen for a newly
created event is derived deterministically from its UID. -/
def newDestPath (e : Event) : String :=
  "/dest/" ++ e.UID ++ ".ics"

/-- The destination side changed concurrently when the event currently at
the mapped destination path carries an ETag different from the one
recorded at the last reconciled write. -/
def destConcurrentlyChanged (st : RunState) (entry : MapEntry) : Bool :=
  match st.destEvents.find? (fun d => decide (d.Path = entry.destPath)) with
  | some d => decide (¬ d.ETag = entry.lastETag)
  | none => false

/-- Modelled from the spec: processing one changed source resource.  A
malformed resource is recorded in the collector and skipped.  A parsed
event whose UID is mapped is an update, unless the destination changed
concurrently and the strategy is destination-wins, in which case the
update is skipped as a conflict.  An unmapped event is first matched by
dedupe key against existing unmapped destination events — a hit is
adopted into the UID map with no write — and otherwise created. -/
def processChanged (strat : ConflictStrategy) (st : RunState) (fr : FetchResult) :
    RunState :=
  match fr with
  | .malformed path msg => { st with collector := st.collector.Add path msg }
  | .ok e =>
    match st.uidMap.find? (fun en => decide (en.uid = e.UID)) with
    | some entry =>
      if destConcurrentlyChanged st entry = true ∧ strat = ConflictStrategy.destWins then
        { st with actions := st.actions ++ [SyncAction.conflictSkip entry.destPath] }
      else
        { st with actions := st.actions ++ [SyncAction.update entry.destPath e] }
    | none =>
      match findDedupeMatch st.uidMap st.destEvents e.DedupeKey with
      | some d =>
        { st with
            uidMap := st.uidMap ++ [{ uid := e.UID, srcPath := e.Path,
                                      destPath := d.Path, lastETag := d.ETag }],
            actions := st.actions ++ [SyncAction.adopt e.UID d.Path] }
      | none =>
        { st with
            uidMap := st.uidMap ++ [{ uid := e.UID, srcPath := e.Path,
                                      destPath := newDestPath e, lastETag := "" }],
            actions := st.actions ++ [SyncAction.create e] }

/-- Step 3 of the reconciler: process every fetched changed resource in
order. -/
def applyChanges (strat : ConflictStrategy) (st : RunState)
    (fetched : List FetchResult) : RunState :=
  fetched.foldl (processChanged strat) st

/-- The resource paths present in the listing a Sync call returned. -/
def listedPaths (r : SyncResult) : List String :=
  r.changedEvents.map Event.Path

/-- Modelled from the spec: the source paths the run treats as deleted —
under fullResync, the previously-known source paths absent from the full
listing; otherwise exactly the explicit delta-delete paths. -/
def deletionSet (r : SyncResult) (m : List MapEntry) : List String :=
  if r.fullResync then
    (m.map MapEntry.srcPath).filter (fun p => decide (¬ p ∈ listedPaths r))
  else
    r.deletedPaths

/-- Modelled from the spec: step 4 of the reconciler for one deleted
source path — if mapped, issue a destination delete and drop the mapping;
an unmapped deletion is a no-op. -/
def processDelete (st : RunState) (srcPath : String) : RunState :=
  match st.uidMap.find? (fun en => decide (en.srcPath = srcPath)) with
  | some entry =>
    { st with
        uidMap := st.uidMap.filter (fun en => decide (¬ en.uid = entry.uid)),
        actions := st.actions ++ [SyncAction.delete entry.destPath] }
  | none => st

/-- Modelled from the spec: one one-way reconciler run over the outcome
of a Sync call — apply all changed resources, then all deletions. -/
def Reconcile (strat : ConflictStrategy) (fetched : List FetchResult)
    (r : SyncResult) (m0 : List MapEntry) (dest : List Event) : RunState :=
  (deletionSet r (applyChanges strat (initState m0 dest) fetched).uidMap).foldl
    processDelete (applyChanges strat (initState m0 dest) fetched)

/-- The full pipeline for one calendar pair: Sync against the source
server, fetch each changed resource, and reconcile. -/
def SyncAndReconcile (strat : ConflictStrategy) (S : ServerState)
    (cal : Calendar) (m0 : List MapEntry) (dest : List Event) : RunState :=
  Reconcile strat ((Sync S cal).changedEvents.map (FetchEvent S)) (Sync S cal)
    m0 dest

/-- The destination event of the dedupe-adoption scenario: already stored
under the foreign UID legacy-1, with no UID-map entry. -/
def standupLegacy : Event :=
  { Path := "/dest/legacy-1.ics", ETag := "etag-legacy", Data := "",
    UID := "legacy-1", Summary := "Standup", StartTime := "20240115T090000Z" }

/-- The source event of the dedupe-adoption scenario: the same meeting
sent under UID u1. -/
def standupSrc : Event :=
  { Path := "/src/u1.ics", ETag := "etag-u1", Data := "",
    UID := "u1", Summary := "Standup", StartTime := "20240115T090000Z" }

/-- The delta the source reports in the dedupe-adoption scenario: one
changed event, no deletions, no full resync. -/
def standupDelta : SyncResult :=
  { changedEvents := [standupSrc], deletedPaths := [], newToken := "tok-1",
    fullResync := false }

/-- A concrete server state holding one event, accepting only the token
tok-live, and reporting empty deltas. -/
def sampleServer : ServerState :=
  { events := [standupSrc], malformedPaths := [], currentToken := "tok-live",
    accepted := ["tok-live"], deltaChanged := fun _ => [],
    deltaDeleted := fun _ => [] }

/-- A calendar carrying a stored sync token the sample server rejects. -/
def staleCal : Calendar :=
  { Path := "/cal/", Name := "Work", Description := "", Color := "",
    SyncToken := "stale-token", CTag := "ctag-1" }

/-- A persisted UID-map entry whose source resource gets deleted. -/
def oldEntry : MapEntry :=
  { uid := "u2", srcPath := "/src/old.ics", destPath := "/dest/old.ics",
    lastETag := "e2" }

/-- A delta reporting a single explicit delete and no changed events. -/
def deleteDelta : SyncResult :=
  { changedEvents := [], deletedPaths := ["/src/old.ics"], newToken := "tok-2",
    fullResync := false }

/-- Result of a trigger attempt for a source. -/
inductive TriggerResult where
  | accepted
  | alreadyRunning
deriving Repr, DecidableEq

/-- Modelled from the spec: the scheduler implementation is not in the
snapshot; its in-memory state holds the lazily created per-source lock
objects (identified by a numeric identity), the fresh-lock counter, the
sources whose lock is currently held, and the jobs map from source
identifier to interval. -/
structure SchedulerState where
  syncLocks : List (String × Nat)
  nextLockId : Nat
  running : List String
  jobs : List (String × Int)
deriving Repr, DecidableEq

/-- A new scheduler: no locks issued, nothing running, no jobs. -/
def NewScheduler : SchedulerState :=
  { syncLocks := [], nextLockId := 0, running := [], jobs := [] }

/-- Modelled from the spec: the per-source lock is obtained lazily, one
lock object per source identifier; an existing lock is reused and a new
source gets a lock with a fresh identity. -/
def getSyncLock (st : SchedulerState) (src : String) : SchedulerState × Nat :=
  match st.syncLocks.find? (fun p => decide (p.1 = src)) with
  | some p => (st, p.2)
  | none =>
    ({ st with
        syncLocks := st.syncLocks ++ [(src, st.nextLockId)],
        nextLockId := st.nextLockId + 1 }, st.nextLockId)

/-- Modelled from the spec: a trigger attempt (scheduled tick or manual
TriggerSync) takes the per-source lock without blocking; when the source
is already running the attempt is rejected immediately with the state
unchanged — rejected, never queued. -/
def tryTrigger (st : SchedulerState) (src : String) :
    SchedulerState × TriggerResult :=
  if src ∈ st.running then (st, TriggerResult.alreadyRunning)
  else ({ st with running := st.running ++ [src] }, TriggerResult.accepted)

/-- Modelled from the spec: AddJob installs a job for a source; when one
already exists its interval is replaced in place, never duplicated. -/
def AddJob (st : SchedulerState) (src : String) (interval : Int) :
    SchedulerState :=
  if st.jobs.any (fun p => decide (p.1 = src)) then
    { st with jobs := st.jobs.map (fun p => if p.1 = src then (src, interval) else p) }
  else
    { st with jobs := st.jobs ++ [(src, interval)] }

/-- GetJobCount is introspection only: the number of installed jobs. -/
def GetJobCount (st : SchedulerState) : Nat :=
  st.jobs.length

/-- Modelled from the spec: RemoveJob drops the job for the source;
removing a non-existent or already-removed job is a no-op. -/
def RemoveJob (st : SchedulerState) (src : String) : SchedulerState :=
  { st with jobs := st.jobs.filter (fun p => decide (¬ p.1 = src)) }

/-- Modelled from the spec: UpdateJobInterval replaces the interval of an
existing job and does nothing for an unknown source. -/
def UpdateJobInterval (st : SchedulerState) (src : String) (interval : Int) :
    SchedulerState :=
  if st.jobs.any (fun p => decide (p.1 = src)) then
    { st with jobs := st.jobs.map (fun p => if p.1 = src then (src, interval) else p) }
  else
    st

/-- Well-formedness of the lock map: distinct sources hold distinct lock
objects and every issued lock identity is below the fresh counter. -/
def SchedWf (st : SchedulerState) : Prop :=
  st.syncLocks.Pairwise (fun p q => p.1 ≠ q.1 ∧ p.2 ≠ q.2) ∧
  ∀ p ∈ st.syncLocks, p.2 < st.nextLockId

/-- One nanosecond, the unit of Go durations. -/
def timeNanosecond : Int := 1

def timeMicrosecond : Int := 1000 * timeNanosecond

def timeMillisecond : Int := 1000 * timeMicrosecond

def timeSecond : Int := 1000 * timeMillisecond

def timeMinute : Int := 60 * timeSecond

def timeHour : Int := 60 * timeMinute

/-- Modelled from the spec: the per-run sync timeout is 30 minutes. -/
def syncTimeout : Int := 30 * timeMinute

/-- Modelled from the spec: retention cleanup runs on a 24-hour cadence. -/
def cleanupInterval : Int := 24 * timeHour

/-- Modelled from the spec: SyncRun records are retained for 30 days. -/
def logRetentionDays : Nat := 30

/-- The healthy status string of internal/health/health.go. -/
def StatusHealthy : String := "healthy"

/-- The unhealthy status string of internal/health/health.go. -/
def StatusUnhealthy : String := "unhealthy"

/-- The degraded status string of internal/health/health.go. -/
def StatusDegraded : String := "degraded"

/-- One component health check result, from internal/health/health.go. -/
structure HealthCheck where
  Name : String
  Status : String
  Message : String
  Latency : Int
deriving Repr, DecidableEq

/-- Go map indexing of the checks map: the check stored under a name, if
any. -/
def lookupCheck (checks : List (String × HealthCheck)) (name : String) :
    Option HealthCheck :=
  (checks.find? (fun p => decide (p.1 = name))).map Prod.snd

/-- Embedded from internal/health/health.go: determineOverallStatus scans
the checks for unhealthy and degraded entries, returns unhealthy early
when the database or oidc check is unhealthy, then unhealthy when any
check is, then degraded when any check is, and healthy otherwise. -/
def determineOverallStatus (checks : List (String × HealthCheck)) : String :=
  let hasUnhealthy := checks.any (fun p => decide (p.2.Status = StatusUnhealthy))
  let hasDegraded := checks.any (fun p => decide (p.2.Status = StatusDegraded))
  let dbBad :=
    match lookupCheck checks "database" with
    | some c => decide (c.Status = StatusUnhealthy)
    | none => false
  let oidcBad :=
    match lookupCheck checks "oidc" with
    | some c => decide (c.Status = StatusUnhealthy)
    | none => false
  if dbBad then StatusUnhealthy
  else if oidcBad then StatusUnhealthy
  else if hasUnhealthy then StatusUnhealthy
  else if hasDegraded then StatusDegraded
  else StatusHealthy

/-- Appending a sequence of entries to a collector appends, in order, one
entry per Add call. -/
theorem addAll_events (ps : List (String × String)) :
    ∀ c : MalformedEventCollector,
      (addAll c ps).events =
        c.events ++ ps.map (fun p => { Path := p.1, ErrorMessage := p.2 }) := by
  induction ps with
  | nil => intro c; simp [addAll]
  | cons p t ih =>
    intro c
    have h1 : addAll c (p :: t) = addAll (c.Add p.1 p.2) t := rfl
    rw [h1, ih, MalformedEventCollector.Add]
    simp

/-- C5: for every Event, DedupeKey is the literal concatenation of the
summary, a vertical-bar separator and the start time, with empty fields
participating literally. -/
theorem dedupeKey_concatenation :
    (∀ e : Event, e.DedupeKey = e.Summary ++ "|" ++ e.StartTime) ∧
    Event.DedupeKey
        { Path := "", ETag := "", Data := "", UID := "", Summary := "",
          StartTime := "X" } = "|X" ∧
    Event.DedupeKey
        { Path := "", ETag := "", Data := "", UID := "", Summary := "Y",
          StartTime := "" } = "Y|" ∧
    Event.DedupeKey
        { Path := "", ETag := "", Data := "", UID := "", Summary := "",
          StartTime := "" } = "|" := by
  refine ⟨fun e => rfl, ?_, ?_, ?_⟩ <;> decide

/-- C6: for every sequence of Add calls on a fresh collector, GetEvents
returns exactly the added pairs in insertion order and Count equals the
number of Add calls; a new collector is empty, and Add only appends. -/
theorem collector_insertion_order_and_count (ps : List (String × String)) :
    (addAll NewMalformedEventCollector ps).GetEvents =
        ps.map (fun p => { Path := p.1, ErrorMessage := p.2 }) ∧
    (addAll NewMalformedEventCollector ps).Count = ps.length ∧
    NewMalformedEventCollector.Count = 0 ∧
    NewMalformedEventCollector.GetEvents = [] ∧
    (∀ (c : MalformedEventCollector) (path msg : String),
        (c.Add path msg).GetEvents =
          c.GetEvents ++ [{ Path := path, ErrorMessage := msg }]) := by
  refine ⟨?_, ?_, rfl, rfl, fun c path msg => rfl⟩
  · rw [MalformedEventCollector.GetEvents, addAll_events]
    simp [NewMalformedEventCollector]
  · rw [MalformedEventCollector.Count, addAll_events]
    simp [NewMalformedEventCollector]

/-- C7: deleting the same path twice yields success both times — the
second call reports NotFound, which is treated as success — and the
second call leaves the collection unchanged. -/
theorem deleteEvent_idempotent_success (resources : List String) (path : String) :
    ((DeleteEvent resources path).2).isSuccess = true ∧
    ((DeleteEvent (DeleteEvent resources path).1 path).2).isSuccess = true ∧
    (DeleteEvent (DeleteEvent resources path).1 path).1 =
      (DeleteEvent resources path).1 := by
  by_cases h : path ∈ resources
  · have habs : ¬ path ∈ resources.filter (fun q => decide (¬ q = path)) := by
      intro hc
      have h2 := List.of_mem_filter hc
      simp at h2
    simp [DeleteEvent, h, habs, DeleteResult.isSuccess]
  · simp [DeleteEvent, h, DeleteResult.isSuccess]

/-- C9: the scheduler's operational constants are a 30-minute sync
timeout, a 24-hour cleanup cadence and a 30-day retention window. -/
theorem scheduler_operational_constants :
    syncTimeout = 30 * timeMinute ∧
    cleanupInterval = 24 * timeHour ∧
    logRetentionDays = 30 ∧
    syncTimeout = 1800000000000 ∧
    cleanupInterval = 86400000000000 := by
  refine ⟨rfl, rfl, rfl, by decide, by decide⟩

/-- When a named lookup finds an unhealthy check, the unhealthy scan over
all checks is true. -/
theorem lookup_unhealthy_any (checks : List (String × HealthCheck))
    (name : String) (c : HealthCheck) (hf : lookupCheck checks name = some c)
    (hc : c.Status = StatusUnhealthy) :
    checks.any (fun p => decide (p.2.Status = StatusUnhealthy)) = true := by
  rw [lookupCheck] at hf
  cases hp : checks.find? (fun p => decide (p.1 = name)) with
  | none => rw [hp] at hf; simp at hf
  | some p =>
    rw [hp] at hf
    simp at hf
    refine List.any_eq_true.mpr ⟨p, List.mem_of_find?_eq_some hp, ?_⟩
    rw [hf, hc]
    simp

/-- C10: determineOverallStatus is unhealthy when any check is unhealthy,
otherwise degraded when any check is degraded, otherwise healthy; in
particular the empty check map is healthy. -/
theorem determineOverallStatus_spec (checks : List (String × HealthCheck)) :
    determineOverallStatus checks =
      (if checks.any (fun p => decide (p.2.Status = StatusUnhealthy)) then
        StatusUnhealthy
       else if checks.any (fun p => decide (p.2.Status = StatusDegraded)) then
        StatusDegraded
       else StatusHealthy) ∧
    determineOverallStatus [] = StatusHealthy := by
  refine ⟨?_, by decide⟩
  cases hdb : lookupCheck checks "database" with
  | none =>
    cases hoidc : lookupCheck checks "oidc" with
    | none => simp [determineOverallStatus, hdb, hoidc]
    | some c =>
      by_cases hc : c.Status = StatusUnhealthy
      · have hany := lookup_unhealthy_any checks "oidc" c hoidc hc
        simp [determineOverallStatus, hdb, hoidc, hc, hany]
      · simp [determineOverallStatus, hdb, hoidc, hc]
  | some c =>
    by_cases hc : c.Status = StatusUnhealthy
    · have hany := lookup_unhealthy_any checks "database" c hdb hc
      simp [determineOverallStatus, hdb, hc, hany]
    · cases hoidc : lookupCheck checks "oidc" with
      | none => simp [determineOverallStatus, hdb, hoidc, hc]
      | some c2 =>
        by_cases hc2 : c2.Status = StatusUnhealthy
        · have hany := lookup_unhealthy_any checks "oidc" c2 hoidc hc2
          simp [determineOverallStatus, hdb, hoidc, hc, hc2, hany]
        · simp [determineOverallStatus, hdb, hoidc, hc, hc2]

/-- C8: removing or retuning a job for a source the scheduler does not
know is a no-op, and RemoveJob is idempotent. -/
theorem removeJob_updateJobInterval_unknown_noop (st : SchedulerState)
    (src : String) (i : Int) (h : ¬ src ∈ st.jobs.map Prod.fst) :
    RemoveJob st src = st ∧
    UpdateJobInterval st src i = st ∧
    ∀ (st2 : SchedulerState) (s2 : String),
      RemoveJob (RemoveJob st2 s2) s2 = RemoveJob st2 s2 := by
  refine ⟨?_, ?_, ?_⟩
  · have hkeep : ∀ p ∈ st.jobs, decide (¬ p.1 = src) = true := by
      intro p hp
      have : ¬ p.1 = src := fun hc => h (List.mem_map.mpr ⟨p, hp, hc⟩)
      simp [this]
    rw [RemoveJob, List.filter_eq_self.mpr hkeep]
  · have hany : st.jobs.any (fun p => decide (p.1 = src)) = false := by
      refine List.any_eq_false.mpr ?_
      intro p hp
      simp only [decide_eq_true_eq]
      exact fun hc => h (List.mem_map.mpr ⟨p, hp, hc⟩)
    rw [UpdateJobInterval, hany]
    simp
  · intro st2 s2
    have hkeep : ∀ p ∈ st2.jobs.filter (fun p => decide (¬ p.1 = s2)),
        decide (¬ p.1 = s2) = true := by
      intro p hp
      have h3 := List.mem_filter.mp hp
      exact h3.2
    rw [RemoveJob, RemoveJob, List.filter_eq_self.mpr hkeep]

/-- RemoveJob and UpdateJobInterval are no-ops at a concrete unknown
source on a fresh scheduler, and RemoveJob is idempotent there. -/
theorem removeJob_updateJobInterval_unknown_noop_witness :
    RemoveJob NewScheduler "non-existent-source" = NewScheduler ∧
    UpdateJobInterval NewScheduler "non-existent-source" 600000000000 =
      NewScheduler ∧
    ∀ (st2 : SchedulerState) (s2 : String),
      RemoveJob (RemoveJob st2 s2) s2 = RemoveJob st2 s2 :=
  removeJob_updateJobInterval_unknown_noop NewScheduler "non-existent-source"
    600000000000 (by decide)

/-- C4: of two trigger attempts for the same source the first acquires
the lock and the second is rejected immediately with no state change;
getSyncLock returns the same lock for the same source and, on a
well-formed scheduler, distinct locks for distinct sources; AddJob never
double-counts a source in GetJobCount. -/
theorem per_source_lock_mutual_exclusion :
    (∀ (st : SchedulerState) (src : String), ¬ src ∈ st.running →
      (tryTrigger st src).2 = TriggerResult.accepted ∧
      tryTrigger (tryTrigger st src).1 src =
        ((tryTrigger st src).1, TriggerResult.alreadyRunning)) ∧
    (∀ (st : SchedulerState) (src : String),
      getSyncLock (getSyncLock st src).1 src =
        ((getSyncLock st src).1, (getSyncLock st src).2)) ∧
    (∀ (st : SchedulerState) (s1 s2 : String), SchedWf st → ¬ s1 = s2 →
      (getSyncLock st s1).2 ≠ (getSyncLock (getSyncLock st s1).1 s2).2) ∧
    (∀ (st : SchedulerState) (src : String) (i : Int),
      src ∈ st.jobs.map Prod.fst →
      GetJobCount (AddJob st src i) = GetJobCount st) := by
  refine ⟨?_, ?_, ?_, ?_⟩
  · intro st src h
    refine ⟨by simp [tryTrigger, h], ?_⟩
    simp [tryTrigger, h]
  · intro st src
    cases hf : st.syncLocks.find? (fun p => decide (p.1 = src)) with
    | some p => simp [getSyncLock, hf]
    | none =>
      have h2 : (st.syncLocks ++ [(src, st.nextLockId)]).find?
          (fun p => decide (p.1 = src)) = some (src, st.nextLockId) := by
        rw [List.find?_append, hf]
        simp
      simp [getSyncLock, hf, h2]
  · intro st s1 s2 hwf hne
    cases hf1 : st.syncLocks.find? (fun p => decide (p.1 = s1)) with
    | some p1 =>
      have hp1mem := List.mem_of_find?_eq_some hf1
      have hp1b := List.find?_some hf1
      simp only [decide_eq_true_eq] at hp1b
      have hp1key : p1.1 = s1 := hp1b
      cases hf2 : st.syncLocks.find? (fun p => decide (p.1 = s2)) with
      | some p2 =>
        have hp2mem := List.mem_of_find?_eq_some hf2
        have hp2b := List.find?_some hf2
        simp only [decide_eq_true_eq] at hp2b
        have hp2key : p2.1 = s2 := hp2b
        have hpne : p1 ≠ p2 := by
          intro hc
          exact hne (by rw [← hp1key, hc, hp2key])
        have hsymm : Symmetric (fun p q : String × Nat => p.1 ≠ q.1 ∧ p.2 ≠ q.2) :=
          fun a b hab => ⟨hab.1.symm, hab.2.symm⟩
        have hR := (hwf.1.forall hsymm) hp1mem hp2mem hpne
        simp only [getSyncLock, hf1, hf2]
        exact hR.2
      | none =>
        have hlt := hwf.2 p1 hp1mem
        simp only [getSyncLock, hf1, hf2]
        omega
    | none =>
      cases hf2 : (st.syncLocks ++ [(s1, st.nextLockId)]).find?
          (fun p => decide (p.1 = s2)) with
      | some q =>
        have hqb := List.find?_some hf2
        simp only [decide_eq_true_eq] at hqb
        have hqkey : q.1 = s2 := hqb
        have hqmem := List.mem_of_find?_eq_some hf2
        have hqmem2 : q ∈ st.syncLocks := by
          rcases List.mem_append.mp hqmem with h1 | h1
          · exact h1
          · exfalso
            have hq : q = (s1, st.nextLockId) := by simpa using h1
            exact hne (by rw [← hqkey, hq])
        have hlt := hwf.2 q hqmem2
        simp only [getSyncLock, hf1, hf2]
        omega
      | none =>
        simp only [getSyncLock, hf1, hf2]
        omega
  · intro st src i hmem
    have hany : st.jobs.any (fun p => decide (p.1 = src)) = true := by
      rcases List.mem_map.mp hmem with ⟨p, hp, hps⟩
      exact List.any_eq_true.mpr ⟨p, hp, by simp [hps]⟩
    simp [AddJob, hany, GetJobCount]

/-- Mutual exclusion, lock identity and job counting instantiated on a
concrete scheduler. -/
theorem per_source_lock_mutual_exclusion_witness :
    ((tryTrigger NewScheduler "source-1").2 = TriggerResult.accepted ∧
      tryTrigger (tryTrigger NewScheduler "source-1").1 "source-1" =
        ((tryTrigger NewScheduler "source-1").1,
          TriggerResult.alreadyRunning)) ∧
    getSyncLock (getSyncLock NewScheduler "source-1").1 "source-1" =
      ((getSyncLock NewScheduler "source-1").1,
        (getSyncLock NewScheduler "source-1").2) ∧
    (getSyncLock NewScheduler "source-1").2 ≠
      (getSyncLock (getSyncLock NewScheduler "source-1").1 "source-2").2 ∧
    GetJobCount
        (AddJob (AddJob NewScheduler "source-1" 300000000000) "source-1"
          600000000000) =
      GetJobCount (AddJob NewScheduler "source-1" 300000000000) :=
  ⟨per_source_lock_mutual_exclusion.1 NewScheduler "source-1" (by decide),
   per_source_lock_mutual_exclusion.2.1 NewScheduler "source-1",
   per_source_lock_mutual_exclusion.2.2.1 NewScheduler "source-1" "source-2"
     ⟨List.Pairwise.nil, by simp [NewScheduler]⟩ (by decide),
   per_source_lock_mutual_exclusion.2.2.2
     (AddJob NewScheduler "source-1" 300000000000) "source-1" 600000000000
     (by decide)⟩

/-- C1: when the server rejects the stored sync token, the Sync call
falls back to a full listing with fullResync set, and the whole run
applies exactly the destination changes of a cold-start sync (cleared
cursor) against the same server state. -/
theorem token_fallback_cold_start_equiv (strat : ConflictStrategy)
    (S : ServerState) (cal : Calendar) (m0 : List MapEntry)
    (dest : List Event) (h : ¬ cal.SyncToken ∈ S.accepted) :
    Sync S cal = Sync S { cal with SyncToken := "" } ∧
    (Sync S cal).fullResync = true ∧
    SyncAndReconcile strat S cal m0 dest =
      SyncAndReconcile strat S { cal with SyncToken := "" } m0 dest := by
  have h1 : ¬ (¬ cal.SyncToken = "" ∧ cal.SyncToken ∈ S.accepted) :=
    fun hc => h hc.2
  have h2 : ¬ (¬ ({ cal with SyncToken := "" } : Calendar).SyncToken = "" ∧
      ({ cal with SyncToken := "" } : Calendar).SyncToken ∈ S.accepted) :=
    fun hc => hc.1 rfl
  have hsync : Sync S cal = Sync S { cal with SyncToken := "" } := by
    simp only [Sync]
    rw [if_neg h1]
    simp
  refine ⟨hsync, ?_, ?_⟩
  · simp only [Sync]
    rw [if_neg h1]
  · simp only [SyncAndReconcile, hsync]

/-- The token-invalidation fallback coincides with a cold-start sync on a
concrete server state that rejects the stored token. -/
theorem token_fallback_cold_start_equiv_witness :
    Sync sampleServer staleCal =
      Sync sampleServer { staleCal with SyncToken := "" } ∧
    (Sync sampleServer staleCal).fullResync = true ∧
    SyncAndReconcile ConflictStrategy.sourceWins sampleServer staleCal [] [] =
      SyncAndReconcile ConflictStrategy.sourceWins sampleServer
        { staleCal with SyncToken := "" } [] [] :=
  token_fallback_cold_start_equiv ConflictStrategy.sourceWins sampleServer
    staleCal [] [] (by decide)

/-- Dropping a mapping during deletion processing never adds UID-map
entries. -/
theorem processDelete_uidMap_sub {st : RunState} {p : String} {en : MapEntry}
    (h : en ∈ (processDelete st p).uidMap) : en ∈ st.uidMap := by
  rw [processDelete] at h
  cases hf : st.uidMap.find? (fun e2 => decide (e2.srcPath = p)) with
  | none => rw [hf] at h; exact h
  | some entry =>
    rw [hf] at h
    exact List.mem_of_mem_filter h

/-- Every action appended by deletion processing is a destination delete
of a mapped entry whose source path is the processed one. -/
theorem processDelete_actions {st : RunState} {p : String} {a : SyncAction}
    (h : a ∈ (processDelete st p).actions) :
    a ∈ st.actions ∨
      ∃ en, en ∈ st.uidMap ∧ en.srcPath = p ∧
        a = SyncAction.delete en.destPath := by
  rw [processDelete] at h
  cases hf : st.uidMap.find? (fun e2 => decide (e2.srcPath = p)) with
  | none => rw [hf] at h; exact Or.inl h
  | some entry =>
    rw [hf] at h
    rcases List.mem_append.mp h with h1 | h2
    · exact Or.inl h1
    · right
      have hb := List.find?_some hf
      simp only [decide_eq_true_eq] at hb
      exact ⟨entry, List.mem_of_find?_eq_some hf, hb, by simpa using h2⟩

/-- Folding deletion processing over a list of source paths appends only
deletes of entries that were mapped when the fold started, each for one
of the processed paths. -/
theorem foldl_processDelete_actions (ps : List String) :
    ∀ (st : RunState) (a : SyncAction),
      a ∈ (ps.foldl processDelete st).actions →
      a ∈ st.actions ∨
        ∃ p, p ∈ ps ∧ ∃ en, en ∈ st.uidMap ∧ en.srcPath = p ∧
          a = SyncAction.delete en.destPath := by
  induction ps with
  | nil => intro st a h; exact Or.inl h
  | cons p rest ih =>
    intro st a h
    rcases ih (processDelete st p) a h with h1 | ⟨q, hq, en, hen, he1, he2⟩
    · rcases processDelete_actions h1 with h2 | ⟨en, hen, he1, he2⟩
      · exact Or.inl h2
      · exact Or.inr ⟨p, List.mem_cons_self p rest, en, hen, he1, he2⟩
    · exact Or.inr ⟨q, List.mem_cons_of_mem p hq, en,
        processDelete_uidMap_sub hen, he1, he2⟩

/-- Processing one changed resource appends only non-delete actions. -/
theorem processChanged_actions_append (strat : ConflictStrategy)
    (st : RunState) (fr : FetchResult) :
    ∃ tail, (processChanged strat st fr).actions = st.actions ++ tail ∧
      ∀ a ∈ tail, a.isDelete = false := by
  cases fr with
  | malformed p m =>
    exact ⟨[], by simp [processChanged], by simp⟩
  | ok e =>
    rw [processChanged]
    cases hf : st.uidMap.find? (fun en => decide (en.uid = e.UID)) with
    | some entry =>
      by_cases hc : destConcurrentlyChanged st entry = true ∧
          strat = ConflictStrategy.destWins
      · refine ⟨[SyncAction.conflictSkip entry.destPath], ?_, ?_⟩
        · simp [hc]
        · simp [SyncAction.isDelete]
      · refine ⟨[SyncAction.update entry.destPath e], ?_, ?_⟩
        · simp [hc]
        · simp [SyncAction.isDelete]
    | none =>
      cases hm : findDedupeMatch st.uidMap st.destEvents e.DedupeKey with
      | some d =>
        refine ⟨[SyncAction.adopt e.UID d.Path], by simp, ?_⟩
        simp [SyncAction.isDelete]
      | none =>
        refine ⟨[SyncAction.create e], by simp, ?_⟩
        simp [SyncAction.isDelete]

/-- Applying all changed resources never produces a delete action beyond
those already present. -/
theorem applyChanges_no_delete (fetched : List FetchResult) :
    ∀ (strat : ConflictStrategy) (st : RunState) (a : SyncAction),
      a ∈ (applyChanges strat st fetched).actions →
      a ∈ st.actions ∨ a.isDelete = false := by
  induction fetched with
  | nil => intro strat st a h; exact Or.inl h
  | cons fr rest ih =>
    intro strat st a h
    rcases ih strat (processChanged strat st fr) a h with h1 | h1
    · rcases processChanged_actions_append strat st fr with ⟨tail, he, hall⟩
      rw [he] at h1
      rcases List.mem_append.mp h1 with h2 | h2
      · exact Or.inl h2
      · exact Or.inr (hall a h2)
    · exact Or.inr h1

/-- A path in the run's deletion set is an explicit delta-delete or,
under fullResync, a previously-known path absent from the full listing. -/
theorem mem_deletionSet {r : SyncResult} {m : List MapEntry} {p : String}
    (h : p ∈ deletionSet r m) :
    p ∈ r.deletedPaths ∨ (r.fullResync = true ∧ ¬ p ∈ listedPaths r) := by
  rw [deletionSet] at h
  by_cases hfr : r.fullResync = true
  · rw [if_pos hfr] at h
    have h2 := List.mem_filter.mp h
    have h3 := h2.2
    simp only [decide_eq_true_eq] at h3
    exact Or.inr ⟨hfr, h3⟩
  · rw [if_neg hfr] at h
    exact Or.inl h

/-- C2: a destination delete is issued only for a mapped entry whose
source path is an explicit delta-delete or, under fullResync, is absent
from the full listing; a malformed resource only adds a collector entry
and is skipped, never producing any action. -/
theorem deletes_only_from_delta_or_full_listing (strat : ConflictStrategy)
    (fetched : List FetchResult) (r : SyncResult) (m0 : List MapEntry)
    (dest : List Event) (d : String)
    (h : SyncAction.delete d ∈ (Reconcile strat fetched r m0 dest).actions) :
    (∃ en, en ∈ (applyChanges strat (initState m0 dest) fetched).uidMap ∧
        en.destPath = d ∧
        (en.srcPath ∈ r.deletedPaths ∨
          (r.fullResync = true ∧ ¬ en.srcPath ∈ listedPaths r))) ∧
    ∀ (st : RunState) (p m : String),
      processChanged strat st (FetchResult.malformed p m) =
        { st with collector := st.collector.Add p m } := by
  refine ⟨?_, fun st p m => rfl⟩
  rw [Reconcile] at h
  rcases foldl_processDelete_actions
      (deletionSet r (applyChanges strat (initState m0 dest) fetched).uidMap)
      (applyChanges strat (initState m0 dest) fetched)
      (SyncAction.delete d) h with h1 | ⟨p, hp, en, hen, he1, he2⟩
  · rcases applyChanges_no_delete fetched strat (initState m0 dest) _ h1 with
      h2 | h2
    · simp [initState] at h2
    · simp [SyncAction.isDelete] at h2
  · have hd : en.destPath = d := by
      have h3 := he2
      simp only [SyncAction.delete.injEq] at h3
      exact h3.symm
    rcases mem_deletionSet hp with hp1 | hp2
    · exact ⟨en, hen, hd, Or.inl (by rw [he1]; exact hp1)⟩
    · exact ⟨en, hen, hd, Or.inr ⟨hp2.1, by rw [he1]; exact hp2.2⟩⟩

/-- A run over a delta carrying one explicit delete issues exactly that
mapped destination delete, and malformed resources only grow the
collector. -/
theorem deletes_only_from_delta_or_full_listing_witness :
    (∃ en,
        en ∈ (applyChanges ConflictStrategy.sourceWins
            (initState [oldEntry] []) []).uidMap ∧
        en.destPath = "/dest/old.ics" ∧
        (en.srcPath ∈ deleteDelta.deletedPaths ∨
          (deleteDelta.fullResync = true ∧
            ¬ en.srcPath ∈ listedPaths deleteDelta))) ∧
    ∀ (st : RunState) (p m : String),
      processChanged ConflictStrategy.sourceWins st
          (FetchResult.malformed p m) =
        { st with collector := st.collector.Add p m } :=
  deletes_only_from_delta_or_full_listing ConflictStrategy.sourceWins []
    deleteDelta [oldEntry] [] "/dest/old.ics" (by decide)

/-- C3: a changed source event with an unmapped UID that matches some
existing unmapped destination event by dedupe key is adopted into the UID
map — no create is issued — and in the concrete legacy-1 scenario the run
adopts the destination resource for u1 and performs zero creates. -/
theorem dedupe_adoption_no_create (strat : ConflictStrategy) (st : RunState)
    (e : Event)
    (h1 : st.uidMap.find? (fun en => decide (en.uid = e.UID)) = none)
    (h2 : ∃ d, d ∈ st.destEvents ∧ destMapped st.uidMap d.Path = false ∧
        d.DedupeKey = e.DedupeKey) :
    (∃ d, d ∈ st.destEvents ∧ destMapped st.uidMap d.Path = false ∧
        d.DedupeKey = e.DedupeKey ∧
        processChanged strat st (FetchResult.ok e) =
          { st with
              uidMap := st.uidMap ++
                [{ uid := e.UID, srcPath := e.Path, destPath := d.Path,
                   lastETag := d.ETag }],
              actions := st.actions ++ [SyncAction.adopt e.UID d.Path] }) ∧
    (Reconcile ConflictStrategy.sourceWins [FetchResult.ok standupSrc]
        standupDelta [] [standupLegacy]).actions =
      [SyncAction.adopt "u1" "/dest/legacy-1.ics"] ∧
    (Reconcile ConflictStrategy.sourceWins [FetchResult.ok standupSrc]
        standupDelta [] [standupLegacy]).uidMap.map
        (fun en => (en.uid, en.destPath)) =
      [("u1", "/dest/legacy-1.ics")] ∧
    (Reconcile ConflictStrategy.sourceWins [FetchResult.ok standupSrc]
        standupDelta [] [standupLegacy]).actions.countP
        SyncAction.isCreate = 0 := by
  refine ⟨?_, by decide, by decide, by decide⟩
  cases hm : findDedupeMatch st.uidMap st.destEvents e.DedupeKey with
  | none =>
    exfalso
    rcases h2 with ⟨d, hd1, hd2, hd3⟩
    rw [findDedupeMatch] at hm
    have h3 := List.find?_eq_none.mp hm d hd1
    simp only [decide_eq_true_eq] at h3
    exact h3 ⟨hd2, hd3⟩
  | some d =>
    have hm2 := hm
    rw [findDedupeMatch] at hm2
    have hb := List.find?_some hm2
    simp only [decide_eq_true_eq] at hb
    refine ⟨d, List.mem_of_find?_eq_some hm2, hb.1, hb.2, ?_⟩
    simp [processChanged, h1, hm]

/-- The legacy-1 scenario: the run adopts the existing destination event
for u1, maps u1 to it, and issues zero creates. -/
theorem dedupe_adoption_no_create_witness :
    (Reconcile ConflictStrategy.sourceWins [FetchResult.ok standupSrc]
        standupDelta [] [standupLegacy]).actions =
      [SyncAction.adopt "u1" "/dest/legacy-1.ics"] ∧
    (Reconcile ConflictStrategy.sourceWins [FetchResult.ok standupSrc]
        standupDelta [] [standupLegacy]).uidMap.map
        (fun en => (en.uid, en.destPath)) =
      [("u1", "/dest/legacy-1.ics")] ∧
    (Reconcile ConflictStrategy.sourceWins [FetchResult.ok standupSrc]
        standupDelta [] [standupLegacy]).actions.countP
        SyncAction.isCreate = 0 :=
  (dedupe_adoption_no_create ConflictStrategy.sourceWins
      (initState [] [standupLegacy]) standupSrc (by decide)
      ⟨standupLegacy, by decide, by decide, by decide⟩).2
